import Mathlib

/-!
# Verification of the rd-mini telemetry SDK core

Shallow embedding of `src/python/src/rd_mini/transport.py` and
`src/python/src/rd_mini/client.py`.  Times are modelled as rationals
(Python floats carrying `time.time()` readings), serialized sizes as
natural numbers, and the Python in-place mutation of interaction /
span objects as explicit state passing over a `World` record in which
mutable objects live in an append-only arena addressed by `Nat`
references (so that handle aliasing between the active-interaction
registry and the current-context slot is preserved).
-/

namespace RdMini

/-! ## Python `int()` truncation and latency computation

`latency_ms = int((end_time - start_time) * 1000)` — Python `int()` on a
float truncates toward zero. -/

/-- Truncation toward zero of a rational, as Python `int()` does. -/
def pyIntTrunc (q : ℚ) : ℤ :=
  if q < 0 then -⌊-q⌋ else ⌊q⌋

/-- `int((e - s) * 1000)` from `client.py` (ManualSpan.end, tool, task,
workflow, _finish_interaction). -/
def latencyMs (s e : ℚ) : ℤ :=
  pyIntTrunc ((e - s) * 1000)

/-! ## Transport model (`transport.py`)

Events are abstracted to their type tag, an abstract payload identity
(`dataId`, standing for the `data` dict), and the serialized byte size of
that payload (`none` when `json.dumps(event.data)` raises, in which case
`_enqueue` lets the event through unchecked). -/

/-- `MAX_EVENT_SIZE_BYTES = 1 * 1024 * 1024` from `transport.py`. -/
def MAX_EVENT_SIZE_BYTES : ℕ := 1 * 1024 * 1024

/-- The `type` tag of a `QueuedEvent` in `transport.py`. -/
inductive EventType where
  | trace
  | feedback
  | identify
  | interaction
deriving DecidableEq, Repr

/-- `QueuedEvent` from `transport.py`: the payload dict is abstracted to an
identity `dataId`; `size` is the byte length of `json.dumps(event.data)`,
or `none` when serialization raises (`_enqueue` then skips the size check). -/
structure QueuedEvent where
  type : EventType
  dataId : ℕ
  size : Option ℕ
deriving DecidableEq, Repr

/-- Transport state relevant to queueing: the configured capacity and the
internal `_queue` list. -/
structure TransportState where
  max_queue_size : ℕ
  queue : List QueuedEvent
deriving DecidableEq, Repr

/-- A fresh transport with an empty queue (`Transport.__init__`). -/
def initTransport (cap : ℕ) : TransportState :=
  { max_queue_size := cap, queue := [] }

/-- The capacity-handling part of `Transport._enqueue` (lines 324–336):
once past the size guard, if `len(self._queue) >= self.max_queue_size` the
oldest event is popped (`self._queue.pop(0)`), then the new event is
appended.  (The 80%-capacity branch only prints a warning.) -/
def enqueueAdmit (s : TransportState) (e : QueuedEvent) : TransportState :=
  let q := if s.max_queue_size ≤ s.queue.length then s.queue.drop 1 else s.queue
  { s with queue := q ++ [e] }

/-- `Transport._enqueue` (lines 309–336): events whose serialized size
exceeds `MAX_EVENT_SIZE_BYTES` are dropped; events whose payload fails to
serialize (`size = none`) are let through; admitted events go through the
bounded-queue logic. -/
def enqueueEv (s : TransportState) (e : QueuedEvent) : TransportState :=
  match e.size with
  | some n => if MAX_EVENT_SIZE_BYTES < n then s else enqueueAdmit s e
  | none => enqueueAdmit s e

/-- The observable output of one `Transport._flush_now` call: the drained
queue snapshot (`events = self._queue[:]`), and the three groups posted to
the `/events/track`, `/signals/track` and `/users/identify` endpoints. -/
structure FlushOutput where
  drained : List QueuedEvent
  eventsBatch : List QueuedEvent
  signalsBatch : List QueuedEvent
  identifySingles : List QueuedEvent
deriving DecidableEq, Repr

/-- `Transport._flush_now` (lines 347–371): snapshot and clear the queue,
then partition the snapshot by event type; trace/interaction events form
the events batch, feedback events the signals batch, identify events are
sent individually. -/
def flushNow (s : TransportState) : TransportState × FlushOutput :=
  let events := s.queue
  ({ s with queue := [] },
   { drained := events
     eventsBatch := events.filter fun e =>
       e.type = EventType.trace ∨ e.type = EventType.interaction
     signalsBatch := events.filter fun e => e.type = EventType.feedback
     identifySingles := events.filter fun e => e.type = EventType.identify })

/-- Enqueue a list of events in order. -/
def enqueueAll (s : TransportState) (es : List QueuedEvent) : TransportState :=
  es.foldl enqueueEv s

/-- An event is admissible at the size guard when its payload serialized to
at most the cap ("under the size cap"). -/
def UnderCap (e : QueuedEvent) : Prop :=
  ∃ n, e.size = some n ∧ n ≤ MAX_EVENT_SIZE_BYTES

instance (e : QueuedEvent) : Decidable (UnderCap e) := by
  unfold UnderCap
  cases h : e.size with
  | none => exact .isFalse (by simp)
  | some n => exact decidable_of_iff (n ≤ MAX_EVENT_SIZE_BYTES) (by simp)

/-- An event never violates the cap: either unserializable or within cap. -/
def SizeOk (e : QueuedEvent) : Prop :=
  ∀ n, e.size = some n → n ≤ MAX_EVENT_SIZE_BYTES

/-- All queued events satisfy `SizeOk`. -/
def QueueSizeOk (s : TransportState) : Prop :=
  ∀ e ∈ s.queue, SizeOk e

/-! ### Basic enqueue lemmas -/

theorem enqueueEv_underCap (s : TransportState) (e : QueuedEvent)
    (h : UnderCap e) : enqueueEv s e = enqueueAdmit s e := by
  obtain ⟨n, hn, hle⟩ := h
  simp [enqueueEv, hn, Nat.not_lt.mpr hle]

theorem enqueueAdmit_no_evict (s : TransportState) (e : QueuedEvent)
    (h : s.queue.length < s.max_queue_size) :
    (enqueueAdmit s e).queue = s.queue ++ [e] := by
  simp [enqueueAdmit, Nat.not_le.mpr h]

theorem enqueueAdmit_evict (s : TransportState) (e : QueuedEvent)
    (h : s.max_queue_size ≤ s.queue.length) :
    (enqueueAdmit s e).queue = s.queue.drop 1 ++ [e] := by
  simp [enqueueAdmit, h]

theorem enqueueAdmit_cap (s : TransportState) (e : QueuedEvent) :
    (enqueueAdmit s e).max_queue_size = s.max_queue_size := by
  simp [enqueueAdmit]

theorem enqueueEv_cap (s : TransportState) (e : QueuedEvent) :
    (enqueueEv s e).max_queue_size = s.max_queue_size := by
  unfold enqueueEv
  cases e.size with
  | none => exact enqueueAdmit_cap s e
  | some n =>
    by_cases h : MAX_EVENT_SIZE_BYTES < n <;> simp [h, enqueueAdmit_cap]

/-- Enqueuing admissible events into a queue with enough headroom just
appends them in order. -/
theorem enqueueAll_no_evict (es : List QueuedEvent) :
    ∀ s : TransportState, (∀ e ∈ es, UnderCap e) →
      s.queue.length + es.length ≤ s.max_queue_size →
      (enqueueAll s es).queue = s.queue ++ es ∧
      (enqueueAll s es).max_queue_size = s.max_queue_size := by
  induction es with
  | nil => intro s _ _; simp [enqueueAll]
  | cons e rest ih =>
    intro s hadm hlen
    have he : UnderCap e := hadm e (by simp)
    have hlt : s.queue.length < s.max_queue_size := by
      simp only [List.length_cons] at hlen; omega
    have hstep : enqueueEv s e = enqueueAdmit s e := enqueueEv_underCap s e he
    have hq : (enqueueAdmit s e).queue = s.queue ++ [e] :=
      enqueueAdmit_no_evict s e hlt
    have hcap : (enqueueAdmit s e).max_queue_size = s.max_queue_size :=
      enqueueAdmit_cap s e
    have hrest := ih (enqueueAdmit s e)
      (fun x hx => hadm x (by simp [hx]))
      (by simp only [hq, hcap, List.length_append, List.length_singleton]
          simp only [List.length_cons] at hlen; omega)
    refine ⟨?_, ?_⟩
    · show (enqueueAll (enqueueEv s e) rest).queue = s.queue ++ e :: rest
      rw [hstep, hrest.1, hq]
      simp
    · show (enqueueAll (enqueueEv s e) rest).max_queue_size = s.max_queue_size
      rw [hstep, hrest.2, hcap]

/-- C1, main computation: enqueuing `N+1` admissible events into an empty
queue of capacity `N` leaves exactly the last `N` events, in order. -/
theorem enqueueAll_overflow (N : ℕ) (hN : 0 < N) (e : QueuedEvent)
    (rest : List QueuedEvent) (hlen : rest.length = N)
    (hadm : ∀ x ∈ e :: rest, UnderCap x) :
    (enqueueAll (initTransport N) (e :: rest)).queue = rest := by
  -- split off the last event: the first N fill the queue, the last evicts e
  obtain ⟨last, front, hrest⟩ : ∃ l f, rest = f ++ [l] := by
    cases hback : rest.getLast? with
    | none => exact absurd (List.getLast?_eq_none_iff.mp hback) (by
        intro h; rw [h] at hlen; simp at hlen; omega)
    | some l =>
      exact ⟨l, rest.dropLast, (List.dropLast_append_getLast? l hback).symm⟩
  subst hrest
  have hfill := enqueueAll_no_evict (e :: front) (initTransport N)
    (fun x hx => hadm x (by
      rcases List.mem_cons.mp hx with h | h
      · simp [h]
      · simp [h]))
    (by simp only [initTransport, List.length_cons, List.length_nil]
        simp only [List.length_append, List.length_singleton] at hlen
        omega)
  have hfull : (enqueueAll (initTransport N) (e :: front)).queue =
      e :: front := by
    have := hfill.1; simpa [initTransport] using this
  have hcapf : (enqueueAll (initTransport N) (e :: front)).max_queue_size
      = N := by
    have := hfill.2; simpa [initTransport] using this
  have hsplit : enqueueAll (initTransport N) (e :: (front ++ [last])) =
      enqueueEv (enqueueAll (initTransport N) (e :: front)) last := by
    show List.foldl enqueueEv (initTransport N) (e :: (front ++ [last])) = _
    rw [show e :: (front ++ [last]) = (e :: front) ++ [last] by simp]
    rw [List.foldl_append]
    rfl
  rw [hsplit]
  have hlast : UnderCap last := hadm last (by simp)
  rw [enqueueEv_underCap _ _ hlast]
  have hge : (enqueueAll (initTransport N) (e :: front)).max_queue_size ≤
      (enqueueAll (initTransport N) (e :: front)).queue.length := by
    rw [hcapf, hfull]
    simp only [List.length_cons]
    simp only [List.length_append, List.length_singleton] at hlen
    omega
  rw [enqueueAdmit_evict _ _ hge, hfull]
  simp

/-! ### Transport operation traces (for the "never in any later flush" claim) -/

/-- A caller-visible transport operation: an enqueue (any of the `send_*`
methods after payload formatting) or a flush (`flush()` / timer firing /
`close()`). -/
inductive TOp where
  | enq (e : QueuedEvent)
  | flushT
deriving DecidableEq, Repr

/-- Run a list of transport operations, collecting every event that ever
appears in an outbound flush (the drained snapshots, whose filters form
the posted batches). -/
def runTransport (s : TransportState) : List TOp → TransportState × List QueuedEvent
  | [] => (s, [])
  | TOp.enq e :: rest => runTransport (enqueueEv s e) rest
  | TOp.flushT :: rest =>
    let (s', out) := flushNow s
    let (s'', sent) := runTransport s' rest
    (s'', out.drained ++ sent)

theorem enqueueAdmit_sizeOk (s : TransportState) (e : QueuedEvent)
    (hq : QueueSizeOk s) (he : SizeOk e) : QueueSizeOk (enqueueAdmit s e) := by
  intro x hx
  simp only [enqueueAdmit] at hx
  rcases List.mem_append.mp hx with h | h
  · by_cases hc : s.max_queue_size ≤ s.queue.length
    · simp only [hc, if_pos] at h
      exact hq x (List.mem_of_mem_drop h)
    · simp only [hc, if_neg, not_false_iff] at h
      exact hq x h
  · rw [List.mem_singleton.mp h]; exact he

theorem enqueueEv_sizeOk (s : TransportState) (e : QueuedEvent)
    (hq : QueueSizeOk s) : QueueSizeOk (enqueueEv s e) := by
  unfold enqueueEv
  cases hsz : e.size with
  | none =>
    exact enqueueAdmit_sizeOk s e hq (fun n hn => by rw [hsz] at hn; cases hn)
  | some n =>
    by_cases h : MAX_EVENT_SIZE_BYTES < n
    · simpa [h] using hq
    · simp only [h, if_neg, not_false_iff]
      exact enqueueAdmit_sizeOk s e hq
        (fun m hm => by rw [hsz] at hm; cases hm; omega)

/-- Every event that ever appears in a flush of a run satisfies the size
cap (or was unserializable): oversized serializable events never escape. -/
theorem runTransport_sizeOk (ops : List TOp) :
    ∀ s : TransportState, QueueSizeOk s →
      ∀ x ∈ (runTransport s ops).2, SizeOk x := by
  induction ops with
  | nil => intro s _ x hx; simp [runTransport] at hx
  | cons op rest ih =>
    intro s hq x hx
    cases op with
    | enq e =>
      exact ih (enqueueEv s e) (enqueueEv_sizeOk s e hq) x hx
    | flushT =>
      simp only [runTransport, flushNow] at hx
      rcases List.mem_append.mp hx with h | h
      · exact hq x h
      · exact ih { s with queue := [] } (by intro y hy; cases hy) x h

/-! ### Retry model (`Transport._send_batch`, lines 373–399)

One attempt is an HTTP POST; `oracle k` tells whether attempt number `k`
(0-based) succeeds (`response.is_success`; an exception and a non-2xx
response both count as failure, and both take the same retry path).  The
source recurses with `retries + 1` while `retries < self.max_retries`; we
carry the remaining budget `max_retries - retries` instead, which makes
the recursion structural.  The function returns the pair
(number of attempts made, number of delivered batches); it is total, so
no error ever propagates to the caller. -/

def sendBatchAux (oracle : ℕ → Bool) (attempt : ℕ) : ℕ → ℕ × ℕ
  | 0 => if oracle attempt then (1, 1) else (1, 0)
  | budget + 1 =>
    if oracle attempt then (1, 1)
    else
      let r := sendBatchAux oracle (attempt + 1) budget
      (r.1 + 1, r.2)

/-- `Transport._send_batch` entered with `retries = 0`: full budget
`max_retries` remaining. -/
def sendBatch (oracle : ℕ → Bool) (max_retries : ℕ) : ℕ × ℕ :=
  sendBatchAux oracle 0 max_retries

theorem sendBatchAux_allFail (oracle : ℕ → Bool)
    (hfail : ∀ n, oracle n = false) :
    ∀ budget attempt, sendBatchAux oracle attempt budget = (budget + 1, 0) := by
  intro budget
  induction budget with
  | zero => intro attempt; simp [sendBatchAux, hfail]
  | succ b ih =>
    intro attempt
    simp [sendBatchAux, hfail, ih (attempt + 1)]

/-! ### Feedback payload (`Transport.send_feedback`, lines 121–150) -/

/-- The `type` field of `FeedbackOptions` (`"thumbs_up" | "thumbs_down"`). -/
inductive FbType where
  | thumbs_up
  | thumbs_down
deriving DecidableEq, Repr

/-- `FeedbackOptions` from `types.py`, with the fields `send_feedback`
reads; scores are rationals standing for Python floats. -/
structure FeedbackOptions where
  type : Option FbType := none
  score : Option ℚ := none
  comment : Option String := none
  signal_type : String := "feedback"
  attachment_id : Option String := none
  timestamp : Option String := none
deriving DecidableEq, Repr

/-- The payload dict built by `Transport.send_feedback` (properties beyond
score/comment are carried by the caller-supplied map and elided). -/
structure FeedbackData where
  event_id : String
  signal_name : String
  sentiment : String
  signal_type : String
  timestamp : String
  prop_score : Option ℚ
  prop_comment : Option String
  attachment_id : Option String
deriving DecidableEq, Repr

/-- `Transport.send_feedback` payload construction: when a score is
present, signal name and sentiment come from the `score >= 0.5` test;
otherwise from the thumbs type (`feedback.type or "negative"`,
`"POSITIVE" if feedback.type == "thumbs_up" else "NEGATIVE"`).
`nowIso` stands for `datetime.now(timezone.utc).isoformat()`. -/
def sendFeedbackData (trace_id : String) (fb : FeedbackOptions)
    (nowIso : String) : FeedbackData :=
  let signal_name :=
    match fb.score with
    | some s => if (1 : ℚ)/2 ≤ s then "positive" else "negative"
    | none =>
      match fb.type with
      | some FbType.thumbs_up => "thumbs_up"
      | some FbType.thumbs_down => "thumbs_down"
      | none => "negative"
  let sentiment :=
    match fb.score with
    | some s => if (1 : ℚ)/2 ≤ s then "POSITIVE" else "NEGATIVE"
    | none => if fb.type = some FbType.thumbs_up then "POSITIVE" else "NEGATIVE"
  { event_id := trace_id
    signal_name := signal_name
    sentiment := sentiment
    signal_type := fb.signal_type
    timestamp := fb.timestamp.getD nowIso
    prop_score := fb.score
    prop_comment := fb.comment
    attachment_id := fb.attachment_id }

/-! ## Client model (`client.py`)

Interaction and manual-span objects are mutable in Python and aliased
between the `Interaction` handle, the active-interaction registry
(`_active_interactions`) and the current-context slot
(`_interaction_context`).  We model them in an append-only arena
(`World.handles`, `World.mspans`), addressed by `Nat` references.
Plugin hooks invoked along these paths are modelled separately (see the
plugin pipeline section); the world model elides them, and the Transport
boundary is recorded as the list `World.sent` of `Transport.send_*`
invocations. -/

/-- Python truthiness of an optional string: `None` and `""` are falsy. -/
def optStrTrue : Option String → Bool
  | some s => s ≠ ""
  | none => false

/-- `a or b` for optional strings (`options.event or "interaction"` etc.). -/
def pyOrOpt (a b : Option String) : Option String :=
  if optStrTrue a then a else b

/-- The `type` field of a span (`"tool" | "ai"`). -/
inductive SpanType where
  | tool
  | ai
deriving DecidableEq, Repr

/-- `SpanData` from `types.py`.  `input`/`output` are abstracted to
optional strings, property maps to association lists. -/
structure SpanData where
  span_id : String
  name : String
  type : SpanType
  start_time : ℚ
  parent_id : Option String := none
  end_time : Option ℚ := none
  latency_ms : Option ℤ := none
  input : Option String := none
  output : Option String := none
  error : Option String := none
  properties : List (String × String) := []
deriving DecidableEq, Repr

/-- `InteractionContext` from `types.py`. -/
structure InteractionContext where
  interaction_id : String
  start_time : ℚ
  spans : List SpanData := []
  user_id : Option String := none
  conversation_id : Option String := none
  input : Option String := none
  output : Option String := none
  model : Option String := none
  event : Option String := none
  properties : List (String × String) := []
  attachments : List String := []
deriving DecidableEq, Repr

/-- An `Interaction` handle (`client.py` lines 124–205): its context plus
the `_finished` flag. -/
structure InteractionObj where
  ctx : InteractionContext
  finished : Bool
deriving DecidableEq, Repr

/-- A `ManualSpan` (`client.py` lines 45–121): span data, the interaction
context captured at `start_span` time (as an arena reference), and the
`_ended` flag. -/
structure MSpanObj where
  span : SpanData
  ctxRef : Option ℕ
  ended : Bool
deriving DecidableEq, Repr

/-- One call into the Transport from `client.py`: an interaction payload
(`send_interaction`) or a standalone trace (`send_trace`, here from
`_send_tool_trace`). -/
inductive SentEvent where
  | interactionEv (interaction_id : String) (output : Option String)
      (latency : ℤ) (spans : List SpanData)
  | traceEv (trace_id : String) (input output error : Option String)
deriving DecidableEq, Repr

/-- Ghost history of the active-interaction registry: an entry is added
at `begin` and removed when `_finish_interaction` runs. -/
inductive RegEvent where
  | begun (id : String)
  | closed (id : String)
deriving DecidableEq, Repr

/-- The state of one `Raindrop` client.  `log` is ghost history for the
registry. -/
structure World where
  handles : List InteractionObj := []
  active : List (String × ℕ) := []
  current : Option ℕ := none
  mspans : List MSpanObj := []
  sent : List SentEvent := []
  current_user_id : Option String := none
  nextId : ℕ := 0
  log : List RegEvent := []
deriving DecidableEq, Repr

/-- A freshly constructed `Raindrop`. -/
def initWorld : World := {}

/-- Dictionary lookup in `_active_interactions`. -/
def lookupActive : List (String × ℕ) → String → Option ℕ
  | [], _ => none
  | p :: rest, k => if p.1 = k then some p.2 else lookupActive rest k

/-- `self._active_interactions.pop(k, None)`. -/
def popActive : List (String × ℕ) → String → List (String × ℕ)
  | [], _ => []
  | p :: rest, k => if p.1 = k then popActive rest k else p :: popActive rest k

/-- `self._active_interactions[k] = v` (replace any previous binding). -/
def setActive (l : List (String × ℕ)) (k : String) (v : ℕ) : List (String × ℕ) :=
  (k, v) :: popActive l k

/-- `self._generate_trace_id()` — uuid4 abstracted to a counter. -/
def genTraceId (n : ℕ) : String :=
  "trace_" ++ toString n

/-- The interaction id of the context held in `_interaction_context`,
if any (dereferencing the arena). -/
def currentId (w : World) : Option String :=
  w.current.bind fun c => (w.handles[c]?).map fun obj => obj.ctx.interaction_id

/-- `BeginOptions` from `types.py` (fields read by `Raindrop.begin`). -/
structure BeginOptions where
  event_id : Option String := none
  user_id : Option String := none
  event : Option String := none
  input : Option String := none
  model : Option String := none
  conversation_id : Option String := none
  properties : List (String × String) := []
  attachments : List String := []
deriving DecidableEq, Repr

/-- `Raindrop.begin` (lines 480–542): choose the id
(`options.event_id or self._generate_trace_id()`), build the context,
install it as current, register the handle, and return the handle
reference.  `t` is the `time.time()` reading.  (The
`_call_on_interaction_start` plugin loop is modelled in the plugin
pipeline section.) -/
def beginInteraction (w : World) (opts : BeginOptions) (t : ℚ) : World × ℕ :=
  let gen := genTraceId w.nextId
  let iid := (pyOrOpt opts.event_id (some gen)).getD gen
  let n' := if optStrTrue opts.event_id then w.nextId else w.nextId + 1
  let ctx : InteractionContext :=
    { interaction_id := iid
      start_time := t
      user_id := pyOrOpt opts.user_id w.current_user_id
      conversation_id := opts.conversation_id
      input := opts.input
      model := opts.model
      event := some ((pyOrOpt opts.event (some "interaction")).getD "interaction")
      properties := opts.properties
      attachments := opts.attachments
      spans := [] }
  let h := w.handles.length
  ({ w with
      handles := w.handles ++ [⟨ctx, false⟩]
      active := setActive w.active iid h
      current := some h
      nextId := n'
      log := w.log ++ [RegEvent.begun iid] }, h)

/-- `Raindrop._finish_interaction` (lines 571–618) for the context owned
by handle `h`: pop the registry entry, clear `_interaction_context` iff
the current context carries the same interaction id, and hand the payload
to `Transport.send_interaction` with
`latency_ms = int((end_time - start_time) * 1000)`. -/
def finishInteractionCore (w : World) (h : ℕ) (t : ℚ) : World :=
  match w.handles[h]? with
  | none => w
  | some obj =>
    let iid := obj.ctx.interaction_id
    let cur' :=
      match w.current with
      | none => none
      | some c =>
        match w.handles[c]? with
        | some cobj => if cobj.ctx.interaction_id = iid then none else some c
        | none => some c
    { w with
        active := popActive w.active iid
        current := cur'
        sent := w.sent ++ [SentEvent.interactionEv iid obj.ctx.output
          (latencyMs obj.ctx.start_time t) obj.ctx.spans]
        log := w.log ++ [RegEvent.closed iid] }

/-- `FinishOptions` from `types.py`. -/
structure FinishOptions where
  output : Option String := none
  properties : List (String × String) := []
  attachments : List String := []
deriving DecidableEq, Repr

/-- `Interaction.finish` (lines 178–205): no-op when `_finished` is
already set; otherwise set the flag, merge the options into the context
(`output` only when not `None`), and run `_finish_interaction`. -/
def interactionFinish (w : World) (h : ℕ) (opts : FinishOptions) (t : ℚ) : World :=
  match w.handles[h]? with
  | none => w
  | some obj =>
    if obj.finished then w
    else
      let ctx := obj.ctx
      let ctx' :=
        { ctx with
            output := match opts.output with
              | some o => some o
              | none => ctx.output
            properties := ctx.properties ++ opts.properties
            attachments := ctx.attachments ++ opts.attachments }
      finishInteractionCore
        { w with handles := w.handles.set h ⟨ctx', true⟩ } h t

/-- `Raindrop.resume_interaction` (lines 544–569): raise `KeyError` when
the id is not registered; otherwise re-install the registered
interaction's context as current and return the same handle. -/
def resumeInteraction (w : World) (event_id : String) :
    Except String (World × ℕ) :=
  match lookupActive w.active event_id with
  | none => Except.error ("No active interaction with ID: " ++ event_id)
  | some h => Except.ok ({ w with current := some h }, h)

/-- The span built and finalized by one call through the `Raindrop.tool`
decorator (lines 902–957): `parent_id` from the current context, then on
success (`res = ok v`) `end_time`, `latency_ms` and `output` are set; on
an exception (`res = error e`) `end_time`, `latency_ms` and `error` are
set and `output` stays `None`. -/
def toolSpan (n : ℕ) (name arg : String) (res : Except String String)
    (t0 t1 : ℚ) (parent : Option String) : SpanData :=
  let base : SpanData :=
    { span_id := genTraceId n
      name := name
      type := SpanType.tool
      start_time := t0
      parent_id := parent
      input := some arg }
  match res with
  | Except.ok v =>
    { base with end_time := some t1, latency_ms := some (latencyMs t0 t1),
                output := some v }
  | Except.error e =>
    { base with end_time := some t1, latency_ms := some (latencyMs t0 t1),
                error := some e }

/-- A function call wrapped by the `Raindrop.tool` decorator (lines
889–959): build and finalize the span, then append it to the current
context's span list, or send it as a standalone tool trace
(`_send_tool_trace`) when no interaction is active. -/
def toolCall (w : World) (name arg : String) (res : Except String String)
    (t0 t1 : ℚ) : World :=
  let parent :=
    match w.current.bind fun c => w.handles[c]? with
    | some obj => some obj.ctx.interaction_id
    | none => none
  let sp := toolSpan w.nextId name arg res t0 t1 parent
  match w.current with
  | some c =>
    match w.handles[c]? with
    | some cobj =>
      { w with
          handles := w.handles.set c
            ⟨{ cobj.ctx with spans := cobj.ctx.spans ++ [sp] }, cobj.finished⟩
          nextId := w.nextId + 1 }
    | none => { w with nextId := w.nextId + 1 }
  | none =>
    { w with
        sent := w.sent ++ [SentEvent.traceEv sp.span_id sp.input sp.output sp.error]
        nextId := w.nextId + 1 }

/-- `Raindrop.start_span` (lines 973–1019): create the span with
`parent_id` from the current context and remember that context in the
`ManualSpan`. -/
def startSpanOp (w : World) (name : String) (kind : SpanType) (t : ℚ) : World :=
  let parent :=
    match w.current.bind fun c => w.handles[c]? with
    | some obj => some obj.ctx.interaction_id
    | none => none
  let sp : SpanData :=
    { span_id := genTraceId w.nextId
      name := name
      type := kind
      start_time := t
      parent_id := parent }
  { w with
      mspans := w.mspans ++ [⟨sp, w.current, false⟩]
      nextId := w.nextId + 1 }

/-- `ManualSpan.record_output` (lines 85–88). -/
def recordOutputOp (w : World) (m : ℕ) (v : String) : World :=
  match w.mspans[m]? with
  | none => w
  | some ms =>
    let ms' : MSpanObj := { ms with span := { ms.span with output := some v } }
    { w with mspans := w.mspans.set m ms' }

/-- `ManualSpan.end` (lines 95–121): no-op when `_ended`; otherwise set
`end_time` and `latency_ms`, set `error` only when the argument is truthy
(`if error:`), and append the span to the captured interaction context,
or send it as a standalone tool trace when none was captured. -/
def endSpanOp (w : World) (m : ℕ) (err : Option String) (t : ℚ) : World :=
  match w.mspans[m]? with
  | none => w
  | some ms =>
    if ms.ended then w
    else
      let sp0 := ms.span
      let sp :=
        { sp0 with
            end_time := some t
            latency_ms := some (latencyMs sp0.start_time t)
            error := if optStrTrue err then err else sp0.error }
      let w1 := { w with mspans := w.mspans.set m ⟨sp, ms.ctxRef, true⟩ }
      match ms.ctxRef with
      | some c =>
        match w1.handles[c]? with
        | some cobj =>
          { w1 with
              handles := w1.handles.set c
                ⟨{ cobj.ctx with spans := cobj.ctx.spans ++ [sp] },
                 cobj.finished⟩ }
        | none => w1
      | none =>
        { w1 with
            sent := w1.sent ++
              [SentEvent.traceEv sp.span_id sp.input sp.output sp.error] }

instance {ε α : Type} [DecidableEq ε] [DecidableEq α] :
    DecidableEq (Except ε α) := fun a b =>
  match a, b with
  | Except.ok x, Except.ok y =>
    if h : x = y then Decidable.isTrue (by rw [h])
    else Decidable.isFalse (by intro hc; cases hc; exact h rfl)
  | Except.error x, Except.error y =>
    if h : x = y then Decidable.isTrue (by rw [h])
    else Decidable.isFalse (by intro hc; cases hc; exact h rfl)
  | Except.ok _, Except.error _ => Decidable.isFalse (by intro hc; cases hc)
  | Except.error _, Except.ok _ => Decidable.isFalse (by intro hc; cases hc)

/-- One client-level operation. -/
inductive COp where
  | beginI (opts : BeginOptions) (t : ℚ)
  | finishI (h : ℕ) (opts : FinishOptions) (t : ℚ)
  | resumeI (event_id : String)
  | toolI (name arg : String) (res : Except String String) (t0 t1 : ℚ)
  | startSpanI (name : String) (kind : SpanType) (t : ℚ)
  | recordOutputI (m : ℕ) (v : String)
  | endSpanI (m : ℕ) (err : Option String) (t : ℚ)
deriving DecidableEq, Repr

/-- Execute one client operation (a resume of an unknown id raises to the
caller and leaves the state unchanged). -/
def stepW (w : World) : COp → World
  | COp.beginI opts t => (beginInteraction w opts t).1
  | COp.finishI h opts t => interactionFinish w h opts t
  | COp.resumeI event_id =>
    match resumeInteraction w event_id with
    | Except.ok (w', _) => w'
    | Except.error _ => w
  | COp.toolI name arg res t0 t1 => toolCall w name arg res t0 t1
  | COp.startSpanI name kind t => startSpanOp w name kind t
  | COp.recordOutputI m v => recordOutputOp w m v
  | COp.endSpanI m err t => endSpanOp w m err t

/-- Run a list of client operations. -/
def runClient (w : World) : List COp → World
  | [] => w
  | op :: rest => runClient (stepW w op) rest

/-- Clock-consistency of one operation issued in state `w`: `time.time()`
readings are non-decreasing, so a span ends no earlier than it starts. -/
def ValidOp (w : World) : COp → Prop
  | COp.toolI _ _ _ t0 t1 => t0 ≤ t1
  | COp.endSpanI m _ t => ∀ ms, w.mspans[m]? = some ms → ms.span.start_time ≤ t
  | _ => True

/-- Clock-consistency of a whole operation sequence. -/
def ValidTrace (w : World) : List COp → Prop
  | [] => True
  | op :: rest => ValidOp w op ∧ ValidTrace (stepW w op) rest

/-! ## Plugin pipeline (`Raindrop._call_on_span`, `ManualSpan.end`)

A plugin's `on_span` hook either returns the mutated span or raises; the
loop in `_call_on_span` wraps every invocation in try/except.  (A hook
that raises mid-mutation is modelled as leaving the span unchanged.) -/

/-- A registered plugin, reduced to its name and its optional `on_span`
hook (`hasattr(plugin, "on_span") and plugin.on_span`). -/
structure PluginModel where
  name : String
  on_span : Option (SpanData → Except String SpanData)

/-- Does the plugin implement `on_span`? -/
def hasOnSpan (p : PluginModel) : Bool :=
  p.on_span.isSome

/-- `Raindrop._call_on_span` (lines 291–299): invoke each plugin's hook in
registration order inside try/except; a raising hook is caught (optionally
logged) and the loop continues.  The second component is the ghost list of
plugins whose hook was invoked. -/
def callOnSpan (ps : List PluginModel) (s : SpanData) : SpanData × List String :=
  ps.foldl
    (fun acc p =>
      match p.on_span with
      | none => acc
      | some f =>
        match f acc.1 with
        | Except.ok s' => (s', acc.2 ++ [p.name])
        | Except.error _ => (acc.1, acc.2 ++ [p.name]))
    (s, [])

/-- The names of the plugins that implement `on_span`, in registration
order. -/
def hookNames (ps : List PluginModel) : List String :=
  (ps.filter hasOnSpan).map (·.name)

theorem callOnSpan_go (ps : List PluginModel) :
    ∀ s : SpanData, ∀ l : List String,
      (ps.foldl
        (fun acc p =>
          match p.on_span with
          | none => acc
          | some f =>
            match f acc.1 with
            | Except.ok s' => (s', acc.2 ++ [p.name])
            | Except.error _ => (acc.1, acc.2 ++ [p.name]))
        (s, l)).2 = l ++ hookNames ps := by
  induction ps with
  | nil => intro s l; simp [hookNames]
  | cons p rest ih =>
    intro s l
    cases hp : p.on_span with
    | none =>
      simp only [List.foldl_cons, hp]
      rw [ih s l]
      simp [hookNames, List.filter_cons, hasOnSpan, hp]
    | some f =>
      cases hf : f s with
      | ok s' =>
        simp only [List.foldl_cons, hp, hf]
        rw [ih s' (l ++ [p.name])]
        simp [hookNames, List.filter_cons, hasOnSpan, hp]
      | error m =>
        simp only [List.foldl_cons, hp, hf]
        rw [ih s (l ++ [p.name])]
        simp [hookNames, List.filter_cons, hasOnSpan, hp]

/-- Every registered plugin with an `on_span` hook is invoked, whatever
any individual hook does. -/
theorem callOnSpan_all_run (ps : List PluginModel) (s : SpanData) :
    (callOnSpan ps s).2 = hookNames ps := by
  simpa using callOnSpan_go ps s []

theorem hookNames_append (ps1 ps2 : List PluginModel) :
    hookNames (ps1 ++ ps2) = hookNames ps1 ++ hookNames ps2 := by
  simp [hookNames, List.filter_append]

/-- The result of finalizing a `ManualSpan`: the finalized (possibly
plugin-mutated) span, its destination, and which hooks ran. -/
structure SpanFinal where
  final : SpanData
  ctxSpans : Option (List SpanData)
  sentTrace : Option SentEvent
  ran : List String

/-- `ManualSpan.end` (lines 95–121) with the plugin pipeline explicit:
set `end_time`/`latency_ms`/`error`, run all `on_span` hooks, then append
the span to the captured interaction's span list, or send it as a
standalone trace when no interaction was captured. -/
def manualSpanFinalize (ps : List PluginModel) (span : SpanData)
    (err : Option String) (t : ℚ) (ctxSpans : Option (List SpanData)) :
    SpanFinal :=
  let sp :=
    { span with
        end_time := some t
        latency_ms := some (latencyMs span.start_time t)
        error := if optStrTrue err then err else span.error }
  let r := callOnSpan ps sp
  match ctxSpans with
  | some l =>
    { final := r.1, ctxSpans := some (l ++ [r.1]), sentTrace := none, ran := r.2 }
  | none =>
    { final := r.1
      ctxSpans := none
      sentTrace := some (SentEvent.traceEv r.1.span_id r.1.input r.1.output r.1.error)
      ran := r.2 }

/-! ## Registry and ghost-log lemmas -/

theorem lookupActive_mem (l : List (String × ℕ)) (k : String) (v : ℕ)
    (h : lookupActive l k = some v) : (k, v) ∈ l := by
  induction l with
  | nil => cases h
  | cons p rest ih =>
    by_cases h1 : p.1 = k
    · simp only [lookupActive, h1, if_pos] at h
      cases h
      have hp : p = (k, p.2) := by
        cases p; simp_all
      rw [← hp]
      exact List.mem_cons_self p rest
    · simp only [lookupActive, h1, if_neg, not_false_iff] at h
      exact List.mem_cons_of_mem p (ih h)

theorem lookupActive_pop_self (l : List (String × ℕ)) (k : String) :
    lookupActive (popActive l k) k = none := by
  induction l with
  | nil => rfl
  | cons p rest ih =>
    by_cases h1 : p.1 = k
    · simpa [popActive, h1] using ih
    · simpa [popActive, lookupActive, h1] using ih

theorem lookupActive_pop_ne (l : List (String × ℕ)) (k k' : String)
    (h : k' ≠ k) : lookupActive (popActive l k) k' = lookupActive l k' := by
  induction l with
  | nil => rfl
  | cons p rest ih =>
    by_cases h1 : p.1 = k
    · have hk' : ¬(p.1 = k') := by
        rw [h1]; exact fun hc => h hc.symm
      rw [show popActive (p :: rest) k = popActive rest k by
            simp [popActive, h1],
          show lookupActive (p :: rest) k' = lookupActive rest k' by
            simp [lookupActive, hk']]
      exact ih
    · by_cases h2 : p.1 = k'
      · simp [popActive, lookupActive, h1, h2, h]
      · simpa [popActive, lookupActive, h1, h2] using ih

theorem lookupActive_set_self (l : List (String × ℕ)) (k : String) (v : ℕ) :
    lookupActive (setActive l k v) k = some v := by
  simp [lookupActive, setActive]

theorem lookupActive_set_ne (l : List (String × ℕ)) (k k' : String) (v : ℕ)
    (h : k' ≠ k) :
    lookupActive (setActive l k v) k' = lookupActive l k' := by
  have : ¬((k, v).1 = k') := fun hc => h hc.symm
  simp only [setActive, lookupActive, this, if_neg, not_false_iff]
  exact lookupActive_pop_ne l k k' h

theorem mem_popActive (l : List (String × ℕ)) (k : String)
    (p : String × ℕ) (h : p ∈ popActive l k) : p ∈ l ∧ p.1 ≠ k := by
  induction l with
  | nil => cases h
  | cons q rest ih =>
    by_cases h1 : q.1 = k
    · simp only [popActive, h1, if_pos] at h
      obtain ⟨hm, hne⟩ := ih h
      exact ⟨List.mem_cons_of_mem q hm, hne⟩
    · simp only [popActive, h1, if_neg, not_false_iff, List.mem_cons] at h
      rcases h with h | h
      · exact ⟨by simp [h], by rw [h]; exact h1⟩
      · obtain ⟨hm, hne⟩ := ih h
        exact ⟨List.mem_cons_of_mem q hm, hne⟩

theorem mem_setActive (l : List (String × ℕ)) (k : String) (v : ℕ)
    (p : String × ℕ) (h : p ∈ setActive l k v) :
    p = (k, v) ∨ (p ∈ l ∧ p.1 ≠ k) := by
  simp only [setActive, List.mem_cons] at h
  rcases h with h | h
  · exact Or.inl h
  · exact Or.inr (mem_popActive l k p h)

/-- One registry-history event folded into the "is the id currently
registered" flag. -/
def regStep (id : String) (acc : Bool) : RegEvent → Bool
  | RegEvent.begun i => if i = id then true else acc
  | RegEvent.closed i => if i = id then false else acc

/-- "The id's most recent registry event is a begin": the id was begun
and no interaction with that id has been finished since. -/
def lastIsBegun (id : String) (log : List RegEvent) : Bool :=
  log.foldl (regStep id) false

theorem lastIsBegun_append (id : String) (log : List RegEvent) (e : RegEvent) :
    lastIsBegun id (log ++ [e]) = regStep id (lastIsBegun id log) e := by
  simp [lastIsBegun, List.foldl_append]

/-! ## World invariants -/

theorem getElem?_some_lt {α : Type} {l : List α} {i : ℕ} {x : α}
    (h : l[i]? = some x) : i < l.length :=
  (List.getElem?_eq_some.mp h).choose

theorem getElem?_append_one {α : Type} (l : List α) (a : α) (i : ℕ) (x : α)
    (h : (l ++ [a])[i]? = some x) :
    l[i]? = some x ∨ (i = l.length ∧ x = a) := by
  rcases Nat.lt_trichotomy i l.length with hlt | heq | hgt
  · left
    rw [List.getElem?_append_left hlt] at h
    exact h
  · right
    subst heq
    rw [List.getElem?_concat_length] at h
    exact ⟨rfl, (Option.some_inj.mp h).symm⟩
  · have hlen : (l ++ [a]).length ≤ i := by
      simp only [List.length_append, List.length_singleton]
      omega
    rw [List.getElem?_eq_none hlen] at h
    cases h

/-- Parent linkage and timing discipline of a span relative to the
interaction that owns it. -/
def SpanOk (iid : String) (sp : SpanData) : Prop :=
  sp.parent_id = some iid ∧
  ∀ t, sp.end_time = some t →
    sp.start_time ≤ t ∧ sp.latency_ms = some (latencyMs sp.start_time t)

/-- Every span stored in an interaction's span list is well-linked and
well-timed. -/
def HandleInv (obj : InteractionObj) : Prop :=
  ∀ sp ∈ obj.ctx.spans, SpanOk obj.ctx.interaction_id sp

/-- All interaction handles satisfy `HandleInv`. -/
def HandlesOk (w : World) : Prop :=
  ∀ (i : ℕ) (obj : InteractionObj), w.handles[i]? = some obj → HandleInv obj

/-- Every pending or finished manual span that captured a context points
at a live handle whose interaction id its `parent_id` carries. -/
def MSpansOk (w : World) : Prop :=
  ∀ (j : ℕ) (ms : MSpanObj), w.mspans[j]? = some ms → ∀ c, ms.ctxRef = some c →
    ∃ obj, w.handles[c]? = some obj ∧
      ms.span.parent_id = some obj.ctx.interaction_id

/-- The current-context reference is in bounds. -/
def CurrentOk (w : World) : Prop :=
  ∀ c, w.current = some c → c < w.handles.length

/-- Every registry entry maps an id to a live, unfinished handle carrying
that id. -/
def ActiveOk (w : World) : Prop :=
  ∀ p ∈ w.active, ∃ obj, w.handles[p.2]? = some obj ∧
    obj.ctx.interaction_id = p.1 ∧ obj.finished = false

/-- The registry contains an id exactly when the ghost history's most
recent event for that id is a begin. -/
def LogOk (w : World) : Prop :=
  ∀ id, (lookupActive w.active id).isSome = lastIsBegun id w.log

/-- The full reachable-state invariant of the client model. -/
def WorldInv (w : World) : Prop :=
  HandlesOk w ∧ MSpansOk w ∧ CurrentOk w ∧ ActiveOk w ∧ LogOk w

theorem worldInv_init : WorldInv initWorld := by
  unfold WorldInv HandlesOk MSpansOk CurrentOk ActiveOk LogOk
  refine ⟨?_, ?_, ?_, ?_, ?_⟩
  · intro i obj h; cases h
  · intro j ms h; cases h
  · intro c h; cases h
  · intro p hp; cases hp
  · intro id; rfl

/-! ### Invariant preservation, operation by operation -/

theorem stepW_resume_inv (w : World) (event_id : String) (hw : WorldInv w) :
    WorldInv (stepW w (COp.resumeI event_id)) := by
  obtain ⟨hH, hM, hC, hA, hL⟩ := hw
  cases hlook : lookupActive w.active event_id with
  | none =>
    simp only [stepW, resumeInteraction, hlook]
    exact ⟨hH, hM, hC, hA, hL⟩
  | some h =>
    simp only [stepW, resumeInteraction, hlook]
    refine ⟨hH, hM, ?_, hA, hL⟩
    intro c hc
    simp only at hc
    cases hc
    obtain ⟨obj, hobj, _, _⟩ := hA (event_id, h) (lookupActive_mem _ _ _ hlook)
    exact getElem?_some_lt hobj

theorem stepW_recordOutput_inv (w : World) (m : ℕ) (v : String)
    (hw : WorldInv w) : WorldInv (stepW w (COp.recordOutputI m v)) := by
  obtain ⟨hH, hM, hC, hA, hL⟩ := hw
  cases hms : w.mspans[m]? with
  | none =>
    simp only [stepW, recordOutputOp, hms]
    exact ⟨hH, hM, hC, hA, hL⟩
  | some ms =>
    simp only [stepW, recordOutputOp, hms]
    refine ⟨hH, ?_, hC, hA, hL⟩
    intro j ms' hj c hc
    by_cases hjm : m = j
    · subst hjm
      rw [List.getElem?_set_self (getElem?_some_lt hms)] at hj
      cases hj
      simp only at hc
      exact hM m ms hms c hc
    · rw [List.getElem?_set_ne hjm] at hj
      exact hM j ms' hj c hc

theorem stepW_startSpan_inv (w : World) (name : String) (kind : SpanType)
    (t : ℚ) (hw : WorldInv w) :
    WorldInv (stepW w (COp.startSpanI name kind t)) := by
  obtain ⟨hH, hM, hC, hA, hL⟩ := hw
  simp only [stepW, startSpanOp]
  refine ⟨hH, ?_, hC, hA, hL⟩
  intro j ms hj c hc
  rcases getElem?_append_one _ _ _ _ hj with hold | ⟨hlen, hnew⟩
  · exact hM j ms hold c hc
  · subst hnew
    simp only at hc
    cases hcur : w.current with
    | none => rw [hcur] at hc; cases hc
    | some c0 =>
      rw [hcur] at hc
      cases hc
      have hlt := hC c hcur
      have hobj : ∃ obj, w.handles[c]? = some obj := by
        rw [List.getElem?_eq_getElem hlt]
        exact ⟨_, rfl⟩
      obtain ⟨obj, hobj⟩ := hobj
      refine ⟨obj, hobj, ?_⟩
      simp [hcur, hobj]

theorem begin_inv_general (w : World) (ctx : InteractionContext)
    (iid : String) (n' : ℕ) (uid : Option String)
    (hiid : ctx.interaction_id = iid) (hspans : ctx.spans = [])
    (hw : WorldInv w) :
    WorldInv
      { w with
          handles := w.handles ++ [⟨ctx, false⟩]
          active := setActive w.active iid w.handles.length
          current := some w.handles.length
          current_user_id := uid
          nextId := n'
          log := w.log ++ [RegEvent.begun iid] } := by
  obtain ⟨hH, hM, hC, hA, hL⟩ := hw
  refine ⟨?_, ?_, ?_, ?_, ?_⟩
  · intro i obj hi
    rcases getElem?_append_one _ _ _ _ hi with hold | ⟨_, hnew⟩
    · exact hH i obj hold
    · subst hnew
      intro sp hsp
      rw [hspans] at hsp
      cases hsp
  · intro j ms hj c hc
    obtain ⟨obj, hobj, hpar⟩ := hM j ms hj c hc
    refine ⟨obj, ?_, hpar⟩
    show (w.handles ++ [⟨ctx, false⟩])[c]? = some obj
    rw [List.getElem?_append_left (getElem?_some_lt hobj)]
    exact hobj
  · intro c hc
    simp only at hc
    cases hc
    simp only [List.length_append, List.length_singleton]
    omega
  · intro p hp
    rcases mem_setActive _ _ _ _ hp with hnew | ⟨hold, hne⟩
    · subst hnew
      refine ⟨⟨ctx, false⟩, ?_, hiid, rfl⟩
      exact List.getElem?_concat_length w.handles ⟨ctx, false⟩
    · obtain ⟨obj, hobj, hid, hfin⟩ := hA p hold
      refine ⟨obj, ?_, hid, hfin⟩
      show (w.handles ++ [⟨ctx, false⟩])[p.2]? = some obj
      rw [List.getElem?_append_left (getElem?_some_lt hobj)]
      exact hobj
  · intro id
    simp only [lastIsBegun_append]
    by_cases hid : id = iid
    · subst hid
      rw [lookupActive_set_self]
      simp [regStep]
    · rw [lookupActive_set_ne _ _ _ _ hid]
      have : ¬(iid = id) := fun hc => hid hc.symm
      simp only [regStep, this, if_neg, not_false_iff]
      exact hL id

theorem stepW_begin_inv (w : World) (opts : BeginOptions) (t : ℚ)
    (hw : WorldInv w) : WorldInv (stepW w (COp.beginI opts t)) := by
  simp only [stepW, beginInteraction]
  exact begin_inv_general w _ _ _ _ rfl rfl hw

/-- The merged context written back by `Interaction.finish` before it
calls `_finish_interaction`. -/
def mergedCtx (ctx : InteractionContext) (opts : FinishOptions) :
    InteractionContext :=
  { ctx with
      output := match opts.output with
        | some o => some o
        | none => ctx.output
      properties := ctx.properties ++ opts.properties
      attachments := ctx.attachments ++ opts.attachments }

/-- The handle object after `Interaction.finish` marks it finished. -/
def doneObj (ctx : InteractionContext) (opts : FinishOptions) : InteractionObj :=
  ⟨mergedCtx ctx opts, true⟩

/-- Explicit form of `_finish_interaction` on a live handle. -/
theorem finishInteractionCore_eq (w : World) (h : ℕ) (t : ℚ)
    (obj : InteractionObj) (hh : w.handles[h]? = some obj) :
    finishInteractionCore w h t =
      { w with
          active := popActive w.active obj.ctx.interaction_id
          current :=
            match w.current with
            | none => none
            | some c =>
              match w.handles[c]? with
              | some cobj =>
                if cobj.ctx.interaction_id = obj.ctx.interaction_id then none
                else some c
              | none => some c
          sent := w.sent ++ [SentEvent.interactionEv obj.ctx.interaction_id
            obj.ctx.output (latencyMs obj.ctx.start_time t) obj.ctx.spans]
          log := w.log ++ [RegEvent.closed obj.ctx.interaction_id] } := by
  simp only [finishInteractionCore, hh]

/-- Explicit form of `Interaction.finish` on a live, unfinished handle. -/
theorem interactionFinish_eq (w : World) (h : ℕ) (opts : FinishOptions)
    (t : ℚ) (obj : InteractionObj) (hh : w.handles[h]? = some obj)
    (hf : obj.finished = false) :
    interactionFinish w h opts t =
      { w with
          handles := w.handles.set h (doneObj obj.ctx opts)
          active := popActive w.active obj.ctx.interaction_id
          current :=
            match w.current with
            | none => none
            | some c =>
              match (w.handles.set h (doneObj obj.ctx opts))[c]? with
              | some cobj =>
                if cobj.ctx.interaction_id = obj.ctx.interaction_id then none
                else some c
              | none => some c
          sent := w.sent ++ [SentEvent.interactionEv obj.ctx.interaction_id
            (mergedCtx obj.ctx opts).output
            (latencyMs obj.ctx.start_time t) obj.ctx.spans]
          log := w.log ++ [RegEvent.closed obj.ctx.interaction_id] } := by
  have hlen : h < w.handles.length := getElem?_some_lt hh
  have hset :
      ({ w with handles := w.handles.set h (doneObj obj.ctx opts) } : World).handles[h]? =
        some (doneObj obj.ctx opts) := by
    show (w.handles.set h (doneObj obj.ctx opts))[h]? = _
    exact List.getElem?_set_self hlen
  have hcore := finishInteractionCore_eq
    ({ w with handles := w.handles.set h (doneObj obj.ctx opts) })
    h t (doneObj obj.ctx opts) hset
  simp only [interactionFinish, hh, hf, Bool.false_eq_true, if_neg,
    not_false_iff]
  exact hcore

theorem stepW_finish_inv (w : World) (h : ℕ) (opts : FinishOptions) (t : ℚ)
    (hw : WorldInv w) : WorldInv (stepW w (COp.finishI h opts t)) := by
  obtain ⟨hH, hM, hC, hA, hL⟩ := hw
  cases hh : w.handles[h]? with
  | none =>
    simp only [stepW, interactionFinish, hh]
    exact ⟨hH, hM, hC, hA, hL⟩
  | some obj =>
    cases hf : obj.finished with
    | true =>
      simp only [stepW, interactionFinish, hh, hf, if_pos]
      exact ⟨hH, hM, hC, hA, hL⟩
    | false =>
      have heq := interactionFinish_eq w h opts t obj hh hf
      simp only [stepW]
      rw [heq]
      have hlen : h < w.handles.length := getElem?_some_lt hh
      have hobj' : ∀ (i : ℕ) (x : InteractionObj),
          (w.handles.set h (doneObj obj.ctx opts))[i]? = some x →
          (i = h ∧ x = doneObj obj.ctx opts) ∨
          (i ≠ h ∧ w.handles[i]? = some x) := by
        intro i x hx
        by_cases hih : h = i
        · subst hih
          rw [List.getElem?_set_self hlen] at hx
          exact Or.inl ⟨rfl, (Option.some_inj.mp hx).symm⟩
        · rw [List.getElem?_set_ne hih] at hx
          exact Or.inr ⟨fun hc => hih hc.symm, hx⟩
      refine ⟨?_, ?_, ?_, ?_, ?_⟩
      · intro i x hx
        rcases hobj' i x hx with ⟨_, hxv⟩ | ⟨_, hxv⟩
        · subst hxv
          intro sp hsp
          have := hH h obj hh sp (by simpa [doneObj, mergedCtx] using hsp)
          simpa [doneObj, mergedCtx] using this
        · exact hH i x hxv
      · intro j ms hj c hc
        obtain ⟨obj₀, hobj₀, hpar⟩ := hM j ms hj c hc
        by_cases hch : c = h
        · subst hch
          have hoo : obj₀ = obj := by
            rw [hobj₀] at hh
            exact Option.some_inj.mp hh
          rw [hoo] at hpar
          refine ⟨doneObj obj.ctx opts, ?_, ?_⟩
          · exact List.getElem?_set_self hlen
          · simpa [doneObj, mergedCtx] using hpar
        · refine ⟨obj₀, ?_, hpar⟩
          show (w.handles.set h (doneObj obj.ctx opts))[c]? = some obj₀
          rw [List.getElem?_set_ne (fun hc' => hch hc'.symm)]
          exact hobj₀
      · intro c hc
        rw [List.length_set]
        cases hcur : w.current with
        | none =>
          simp only [hcur] at hc
          cases hc
        | some c0 =>
          simp only [hcur] at hc
          rcases hx : (w.handles.set h (doneObj obj.ctx opts))[c0]?
            with _ | cobj
          · simp only [hx] at hc
            cases hc
            exact hC _ hcur
          · simp only [hx] at hc
            by_cases hcid : cobj.ctx.interaction_id = obj.ctx.interaction_id
            · simp only [hcid, if_pos] at hc
              cases hc
            · simp only [hcid, if_neg, not_false_iff] at hc
              cases hc
              exact hC _ hcur
      · intro p hp
        obtain ⟨hpold, hpne⟩ := mem_popActive _ _ _ hp
        obtain ⟨obj₀, hobj₀, hid, hfin⟩ := hA p hpold
        by_cases hph : p.2 = h
        · exfalso
          rw [hph] at hobj₀
          rw [hobj₀] at hh
          have hoo : obj₀ = obj := Option.some_inj.mp hh
          exact hpne (by rw [← hid, hoo])
        · refine ⟨obj₀, ?_, hid, hfin⟩
          show (w.handles.set h (doneObj obj.ctx opts))[p.2]? =
            some obj₀
          rw [List.getElem?_set_ne (fun hc' => hph hc'.symm)]
          exact hobj₀
      · intro id
        simp only [lastIsBegun_append]
        by_cases hid : id = obj.ctx.interaction_id
        · subst hid
          rw [lookupActive_pop_self]
          simp [regStep]
        · rw [lookupActive_pop_ne _ _ _ hid]
          have : ¬(obj.ctx.interaction_id = id) := fun hc => hid hc.symm
          simp only [regStep, this, if_neg, not_false_iff]
          exact hL id

/-- An interaction handle after appending a finalized span to its
context's span list. -/
def appendSpanObj (cobj : InteractionObj) (sp : SpanData) : InteractionObj :=
  ⟨{ cobj.ctx with spans := cobj.ctx.spans ++ [sp] }, cobj.finished⟩

/-- Appending a well-formed span to a live handle preserves the world
invariant (shared by the tool-decorator and manual-span paths). -/
theorem append_span_inv (w : World) (c : ℕ) (cobj : InteractionObj)
    (sp : SpanData) (hcobj : w.handles[c]? = some cobj)
    (hsp : SpanOk cobj.ctx.interaction_id sp)
    (cur' : Option ℕ)
    (hcur' : ∀ c', cur' = some c' → c' < w.handles.length)
    (mspans' : List MSpanObj)
    (hM' : ∀ (j : ℕ) (ms : MSpanObj), mspans'[j]? = some ms →
      ∀ c', ms.ctxRef = some c' → ∃ obj, w.handles[c']? = some obj ∧
        ms.span.parent_id = some obj.ctx.interaction_id)
    (sent' : List SentEvent) (n' : ℕ) (hw : WorldInv w) :
    WorldInv
      { w with
          handles := w.handles.set c (appendSpanObj cobj sp)
          current := cur'
          mspans := mspans'
          sent := sent'
          nextId := n' } := by
  obtain ⟨hH, hM, hC, hA, hL⟩ := hw
  have hclen : c < w.handles.length := getElem?_some_lt hcobj
  refine ⟨?_, ?_, ?_, ?_, ?_⟩
  · intro i x hx
    by_cases hic : c = i
    · subst hic
      rw [List.getElem?_set_self hclen] at hx
      cases Option.some_inj.mp hx
      intro s hs
      simp only [appendSpanObj, List.mem_append, List.mem_singleton] at hs
      rcases hs with hs | hs
      · exact hH c cobj hcobj s hs
      · subst hs
        exact hsp
    · rw [List.getElem?_set_ne hic] at hx
      exact hH i x hx
  · intro j ms hj c' hc'
    obtain ⟨obj₀, hobj₀, hpar⟩ := hM' j ms hj c' hc'
    by_cases hcc : c' = c
    · subst hcc
      have hoo : obj₀ = cobj := by
        rw [hobj₀] at hcobj
        exact Option.some_inj.mp hcobj
      rw [hoo] at hpar
      refine ⟨appendSpanObj cobj sp, ?_, ?_⟩
      · exact List.getElem?_set_self hclen
      · simpa [appendSpanObj] using hpar
    · refine ⟨obj₀, ?_, hpar⟩
      show (w.handles.set c (appendSpanObj cobj sp))[c']? = some obj₀
      rw [List.getElem?_set_ne (fun hc'' => hcc hc''.symm)]
      exact hobj₀
  · intro c' hc'
    rw [List.length_set]
    exact hcur' c' hc'
  · intro p hp
    obtain ⟨obj₀, hobj₀, hid, hfin⟩ := hA p hp
    by_cases hpc : p.2 = c
    · rw [hpc] at hobj₀ ⊢
      have hoo : obj₀ = cobj := by
        rw [hobj₀] at hcobj
        exact Option.some_inj.mp hcobj
      refine ⟨appendSpanObj cobj sp, List.getElem?_set_self hclen, ?_, ?_⟩
      · rw [hoo] at hid
        simpa [appendSpanObj] using hid
      · rw [hoo] at hfin
        simpa [appendSpanObj] using hfin
    · refine ⟨obj₀, ?_, hid, hfin⟩
      show (w.handles.set c (appendSpanObj cobj sp))[p.2]? = some obj₀
      rw [List.getElem?_set_ne (fun hc'' => hpc hc''.symm)]
      exact hobj₀
  · exact hL

theorem stepW_tool_inv (w : World) (name arg : String)
    (res : Except String String) (t0 t1 : ℚ) (hv : t0 ≤ t1)
    (hw : WorldInv w) : WorldInv (stepW w (COp.toolI name arg res t0 t1)) := by
  obtain ⟨hH, hM, hC, hA, hL⟩ := hw
  cases hcur : w.current with
  | none =>
    cases res with
    | ok v =>
      simp only [stepW, toolCall, hcur, Option.none_bind]
      refine ⟨hH, hM, ?_, hA, hL⟩
      intro c' hc'
      cases hc'
    | error e =>
      simp only [stepW, toolCall, hcur, Option.none_bind]
      refine ⟨hH, hM, ?_, hA, hL⟩
      intro c' hc'
      cases hc'
  | some c =>
    cases hcobj : w.handles[c]? with
    | none =>
      cases res with
      | ok v =>
        simp only [stepW, toolCall, hcur, hcobj, Option.some_bind]
        refine ⟨hH, hM, ?_, hA, hL⟩
        intro c' hc'
        cases hc'
        exact hC _ hcur
      | error e =>
        simp only [stepW, toolCall, hcur, hcobj, Option.some_bind]
        refine ⟨hH, hM, ?_, hA, hL⟩
        intro c' hc'
        cases hc'
        exact hC _ hcur
    | some cobj =>
      have hcb : ∀ c', (some c : Option ℕ) = some c' → c' < w.handles.length := by
        intro c' hc'
        cases hc'
        exact hC _ hcur
      cases res with
      | ok v =>
        simp only [stepW, toolCall, hcur, hcobj, Option.some_bind]
        refine append_span_inv w c cobj ?_ hcobj ?hok1
          (some c) hcb w.mspans hM w.sent _ ⟨hH, hM, hC, hA, hL⟩
        case hok1 =>
          exact ⟨rfl, fun t ht => by
            cases Option.some_inj.mp ht; exact ⟨hv, rfl⟩⟩
      | error e =>
        simp only [stepW, toolCall, hcur, hcobj, Option.some_bind]
        refine append_span_inv w c cobj ?_ hcobj ?hok2
          (some c) hcb w.mspans hM w.sent _ ⟨hH, hM, hC, hA, hL⟩
        case hok2 =>
          exact ⟨rfl, fun t ht => by
            cases Option.some_inj.mp ht; exact ⟨hv, rfl⟩⟩

theorem stepW_endSpan_inv (w : World) (m : ℕ) (err : Option String) (t : ℚ)
    (hvm : ∀ ms : MSpanObj, w.mspans[m]? = some ms → ms.span.start_time ≤ t)
    (hw : WorldInv w) : WorldInv (stepW w (COp.endSpanI m err t)) := by
  obtain ⟨hH, hM, hC, hA, hL⟩ := hw
  cases hms : w.mspans[m]? with
  | none =>
    simp only [stepW, endSpanOp, hms]
    exact ⟨hH, hM, hC, hA, hL⟩
  | some ms =>
    obtain ⟨sp0, cr, ed⟩ := ms
    have hmlen : m < w.mspans.length := getElem?_some_lt hms
    cases ed with
    | true =>
      simp only [stepW, endSpanOp, hms]
      exact ⟨hH, hM, hC, hA, hL⟩
    | false =>
      cases cr with
      | none =>
        simp only [stepW, endSpanOp, hms, Bool.false_eq_true, if_neg,
          not_false_iff]
        refine ⟨hH, ?_, hC, hA, hL⟩
        intro j ms' hj c' hc'
        by_cases hjm : m = j
        · subst hjm
          rw [List.getElem?_set_self hmlen] at hj
          cases Option.some_inj.mp hj
          cases hc'
        · rw [List.getElem?_set_ne hjm] at hj
          exact hM j ms' hj c' hc'
      | some c =>
        obtain ⟨cobj, hcobj, hpar⟩ := hM m ⟨sp0, some c, false⟩ hms c rfl
        simp only [stepW, endSpanOp, hms, hcobj, Bool.false_eq_true, if_neg,
          not_false_iff]
        refine append_span_inv w c cobj ?_ hcobj ?hok3
          w.current hC _ ?hmm3 w.sent _ ⟨hH, hM, hC, hA, hL⟩
        case hok3 =>
          refine ⟨hpar, fun t' ht' => ?_⟩
          cases Option.some_inj.mp ht'
          exact ⟨hvm ⟨sp0, some c, false⟩ hms, rfl⟩
        case hmm3 =>
          intro j ms' hj c' hc'
          by_cases hjm : m = j
          · subst hjm
            rw [List.getElem?_set_self hmlen] at hj
            cases Option.some_inj.mp hj
            cases hc'
            exact ⟨cobj, hcobj, hpar⟩
          · rw [List.getElem?_set_ne hjm] at hj
            exact hM j ms' hj c' hc'

/-- Any clock-consistent operation preserves the world invariant. -/
theorem stepW_inv (w : World) (op : COp) (hv : ValidOp w op)
    (hw : WorldInv w) : WorldInv (stepW w op) := by
  cases op with
  | beginI opts t => exact stepW_begin_inv w opts t hw
  | finishI h opts t => exact stepW_finish_inv w h opts t hw
  | resumeI event_id => exact stepW_resume_inv w event_id hw
  | toolI name arg res t0 t1 => exact stepW_tool_inv w name arg res t0 t1 hv hw
  | startSpanI name kind t => exact stepW_startSpan_inv w name kind t hw
  | recordOutputI m v => exact stepW_recordOutput_inv w m v hw
  | endSpanI m err t => exact stepW_endSpan_inv w m err t hv hw

/-- The world invariant holds along every clock-consistent run. -/
theorem runClient_inv (ops : List COp) :
    ∀ w : World, WorldInv w → ValidTrace w ops →
      WorldInv (runClient w ops) := by
  induction ops with
  | nil => intro w hw _; exact hw
  | cons op rest ih =>
    intro w hw hv
    exact ih (stepW w op) (stepW_inv w op hv.1 hw) hv.2

/-! ## Claim theorems -/

/-- C1: for a Transport with `max_queue_size = N`, enqueuing `N+1` events
(each under the size cap) leaves the oldest absent from the next flush and
the other `N` present in that flush in their original relative order
(drop-oldest eviction). -/
theorem claim_C1_drop_oldest (N : ℕ) (hN : 0 < N) (e : QueuedEvent)
    (rest : List QueuedEvent) (hlen : rest.length = N)
    (hadm : ∀ x ∈ e :: rest, UnderCap x) (hne : e ∉ rest) :
    (flushNow (enqueueAll (initTransport N) (e :: rest))).2.drained = rest ∧
    e ∉ (flushNow (enqueueAll (initTransport N) (e :: rest))).2.drained := by
  have hq := enqueueAll_overflow N hN e rest hlen hadm
  constructor
  · simp [flushNow, hq]
  · simp only [flushNow, hq]
    exact hne

theorem claim_C1_witness :
    (flushNow (enqueueAll (initTransport 2)
      [⟨EventType.trace, 0, some 10⟩, ⟨EventType.trace, 1, some 10⟩,
       ⟨EventType.trace, 2, some 10⟩])).2.drained =
      [⟨EventType.trace, 1, some 10⟩, ⟨EventType.trace, 2, some 10⟩] ∧
    (⟨EventType.trace, 0, some 10⟩ : QueuedEvent) ∉
      (flushNow (enqueueAll (initTransport 2)
        [⟨EventType.trace, 0, some 10⟩, ⟨EventType.trace, 1, some 10⟩,
         ⟨EventType.trace, 2, some 10⟩])).2.drained :=
  claim_C1_drop_oldest 2 (by norm_num) ⟨EventType.trace, 0, some 10⟩
    [⟨EventType.trace, 1, some 10⟩, ⟨EventType.trace, 2, some 10⟩] rfl
    (by decide) (by decide)

/-- C3: a batch send whose first two attempts fail and whose third
succeeds makes exactly 3 network attempts and delivers exactly one batch
(provided the retry budget allows a third attempt, as the default
`max_retries = 3` does); a batch send all of whose attempts fail makes
`max_retries + 1` attempts, delivers nothing, and — the model being a
total function — raises nothing to the caller. -/
theorem claim_C3_retry (max_retries : ℕ) (okOracle failOracle : ℕ → Bool)
    (h0 : okOracle 0 = false) (h1 : okOracle 1 = false)
    (h2 : okOracle 2 = true) (hmax : 2 ≤ max_retries)
    (hfail : ∀ n, failOracle n = false) :
    sendBatch okOracle max_retries = (3, 1) ∧
    sendBatch failOracle max_retries = (max_retries + 1, 0) := by
  constructor
  · obtain ⟨r, rfl⟩ : ∃ r, max_retries = r + 2 := ⟨max_retries - 2, by omega⟩
    cases r with
    | zero => simp [sendBatch, sendBatchAux, h0, h1, h2]
    | succ r' => simp [sendBatch, sendBatchAux, h0, h1, h2]
  · rw [sendBatch, sendBatchAux_allFail failOracle hfail]

theorem claim_C3_witness :
    sendBatch (fun n => n == 2) 3 = (3, 1) ∧
    sendBatch (fun _ => false) 3 = (3 + 1, 0) :=
  claim_C3_retry 3 (fun n => n == 2) (fun _ => false) rfl rfl rfl
    (by norm_num) (fun _ => rfl)

/-- C4: an event whose serialized size exceeds the 1 MiB cap is dropped at
enqueue time (the queue is unchanged by the send call) and is never
present in anything a later flush emits, over any sequence of transport
operations. -/
theorem claim_C4_oversized_never_sent (e : QueuedEvent) (n : ℕ)
    (hn : e.size = some n) (hbig : MAX_EVENT_SIZE_BYTES < n)
    (s : TransportState) (hs : QueueSizeOk s) (ops : List TOp) :
    enqueueEv s e = s ∧ e ∉ (runTransport s ops).2 := by
  constructor
  · simp [enqueueEv, hn, hbig]
  · intro hmem
    have := runTransport_sizeOk ops s hs e hmem n hn
    omega

theorem claim_C4_witness :
    enqueueEv (initTransport 10)
        ⟨EventType.trace, 0, some (MAX_EVENT_SIZE_BYTES + 1)⟩ =
      initTransport 10 ∧
    (⟨EventType.trace, 0, some (MAX_EVENT_SIZE_BYTES + 1)⟩ : QueuedEvent) ∉
      (runTransport (initTransport 10)
        [TOp.enq ⟨EventType.trace, 0, some (MAX_EVENT_SIZE_BYTES + 1)⟩,
         TOp.flushT]).2 :=
  claim_C4_oversized_never_sent
    ⟨EventType.trace, 0, some (MAX_EVENT_SIZE_BYTES + 1)⟩
    (MAX_EVENT_SIZE_BYTES + 1) rfl (Nat.lt_succ_self _)
    (initTransport 10) (by intro x hx; simp [initTransport] at hx) _

/-- C9: a feedback payload built from a numeric score carries sentiment
`"POSITIVE"` exactly when `score >= 0.5` and `"NEGATIVE"` exactly when
`score < 0.5`. -/
theorem claim_C9_sentiment (trace_id : String) (fb : FeedbackOptions)
    (q : ℚ) (nowIso : String) (hq : fb.score = some q) :
    ((sendFeedbackData trace_id fb nowIso).sentiment = "POSITIVE" ↔
      (1 : ℚ)/2 ≤ q) ∧
    ((sendFeedbackData trace_id fb nowIso).sentiment = "NEGATIVE" ↔
      q < (1 : ℚ)/2) := by
  by_cases h : (1 : ℚ)/2 ≤ q
  · constructor
    · simp [sendFeedbackData, hq, h]
    · simp only [sendFeedbackData, hq, h, if_pos]
      constructor
      · intro hc
        exact absurd hc (by decide)
      · intro hc
        exact absurd h (not_le.mpr hc)
  · constructor
    · simp only [sendFeedbackData, hq, h, if_neg, not_false_iff]
      constructor
      · intro hc
        exact absurd hc (by decide)
      · intro hc
        exact hc.elim
    · simp [sendFeedbackData, hq, h, not_le.mp h]

theorem claim_C9_witness :
    (sendFeedbackData "t1" { score := some (3/4) } "ts").sentiment =
      "POSITIVE" ∧
    (sendFeedbackData "t1" { score := some (3/10) } "ts").sentiment =
      "NEGATIVE" ∧
    (sendFeedbackData "t1" { score := some (1/2) } "ts").sentiment =
      "POSITIVE" :=
  ⟨(claim_C9_sentiment "t1" _ (3/4) "ts" rfl).1.mpr (by norm_num),
   (claim_C9_sentiment "t1" _ (3/10) "ts" rfl).2.mpr (by norm_num),
   (claim_C9_sentiment "t1" _ (1/2) "ts" rfl).1.mpr (by norm_num)⟩

/-- C5: when one registered plugin's `on_span` hook raises, every
(subsequently) registered plugin's `on_span` hook still runs, the span
still reaches the Transport (appended to its interaction's span list, or
sent as a standalone trace when no interaction was captured), and — the
model being a total function — no plugin exception propagates to the
caller. -/
theorem claim_C5_plugin_fault_isolation (ps1 ps2 : List PluginModel)
    (bad : PluginModel) (f : SpanData → Except String SpanData)
    (hbad : bad.on_span = some f)
    (hraise : ∀ s, ∃ msg, f s = Except.error msg)
    (span : SpanData) (err : Option String) (t : ℚ)
    (ctxSpans : Option (List SpanData)) :
    (manualSpanFinalize (ps1 ++ bad :: ps2) span err t ctxSpans).ran =
      hookNames ps1 ++ bad.name :: hookNames ps2 ∧
    (∀ l, ctxSpans = some l →
      (manualSpanFinalize (ps1 ++ bad :: ps2) span err t ctxSpans).ctxSpans =
        some (l ++ [(manualSpanFinalize (ps1 ++ bad :: ps2) span err t
          ctxSpans).final])) ∧
    (ctxSpans = none →
      (manualSpanFinalize (ps1 ++ bad :: ps2) span err t ctxSpans).sentTrace =
        some (SentEvent.traceEv
          (manualSpanFinalize (ps1 ++ bad :: ps2) span err t ctxSpans).final.span_id
          (manualSpanFinalize (ps1 ++ bad :: ps2) span err t ctxSpans).final.input
          (manualSpanFinalize (ps1 ++ bad :: ps2) span err t ctxSpans).final.output
          (manualSpanFinalize (ps1 ++ bad :: ps2) span err t ctxSpans).final.error)) := by
  have hnames : hookNames (ps1 ++ bad :: ps2) =
      hookNames ps1 ++ bad.name :: hookNames ps2 := by
    rw [hookNames_append]
    have : hookNames (bad :: ps2) = bad.name :: hookNames ps2 := by
      simp [hookNames, List.filter_cons, hasOnSpan, hbad]
    rw [this]
  refine ⟨?_, ?_, ?_⟩
  · cases ctxSpans with
    | none =>
      show (callOnSpan (ps1 ++ bad :: ps2) _).2 = _
      rw [callOnSpan_all_run, hnames]
    | some l =>
      show (callOnSpan (ps1 ++ bad :: ps2) _).2 = _
      rw [callOnSpan_all_run, hnames]
  · intro l hl
    subst hl
    rfl
  · intro hl
    subst hl
    rfl

def c5good : PluginModel :=
  { name := "good", on_span := some fun s => Except.ok s }

def c5bad : PluginModel :=
  { name := "bad", on_span := some fun _ => Except.error "boom" }

def c5span : SpanData :=
  { span_id := "s1", name := "step", type := SpanType.tool, start_time := 0 }

theorem claim_C5_witness :
    (manualSpanFinalize [c5bad, c5good] c5span none 1 (some [])).ran =
      ["bad", "good"] ∧
    (manualSpanFinalize [c5bad, c5good] c5span none 1 (some [])).ctxSpans =
      some ([] ++
        [(manualSpanFinalize [c5bad, c5good] c5span none 1 (some [])).final]) := by
  have h := claim_C5_plugin_fault_isolation [] [c5good] c5bad
    (fun _ => Except.error "boom") rfl (fun _ => ⟨"boom", rfl⟩)
    c5span none 1 (some [])
  exact ⟨h.1, h.2.1 [] rfl⟩

/-- The number of interaction payloads handed to the Transport. -/
def countInteractionSends (l : List SentEvent) : ℕ :=
  l.countP fun ev =>
    match ev with
    | SentEvent.interactionEv _ _ _ _ => true
    | _ => false

/-- `Interaction.finish` on an already-finished handle returns the state
unchanged (the `_finished` guard). -/
theorem interactionFinish_finished (w : World) (h : ℕ)
    (opts : FinishOptions) (t : ℚ) (obj : InteractionObj)
    (hh : w.handles[h]? = some obj) (hf : obj.finished = true) :
    interactionFinish w h opts t = w := by
  simp [interactionFinish, hh, hf]

/-- C2: for a live, unfinished Interaction handle, the first `finish` call
produces exactly one outbound interaction payload at the Transport, and a
second (or any later) `finish` call is a no-op that leaves the entire
client state unchanged. -/
theorem claim_C2_finish_idempotent (w : World) (h : ℕ)
    (obj : InteractionObj) (opts opts' : FinishOptions) (t t' : ℚ)
    (hh : w.handles[h]? = some obj) (hf : obj.finished = false) :
    interactionFinish (interactionFinish w h opts t) h opts' t' =
      interactionFinish w h opts t ∧
    (∀ k : ℕ, (fun x => interactionFinish x h opts' t')^[k]
      (interactionFinish w h opts t) = interactionFinish w h opts t) ∧
    countInteractionSends (interactionFinish w h opts t).sent =
      countInteractionSends w.sent + 1 := by
  have hlen : h < w.handles.length := getElem?_some_lt hh
  have heq := interactionFinish_eq w h opts t obj hh hf
  have hh1 : (interactionFinish w h opts t).handles[h]? =
      some (doneObj obj.ctx opts) := by
    rw [heq]
    show (w.handles.set h (doneObj obj.ctx opts))[h]? = _
    exact List.getElem?_set_self hlen
  have hstop : interactionFinish (interactionFinish w h opts t) h opts' t' =
      interactionFinish w h opts t :=
    interactionFinish_finished _ h opts' t' (doneObj obj.ctx opts) hh1 rfl
  refine ⟨hstop, fun k => Function.iterate_fixed hstop k, ?_⟩
  rw [heq]
  show countInteractionSends (w.sent ++ [_]) = _
  simp [countInteractionSends, List.countP_append, List.countP_cons]

theorem claim_C2_witness :
    interactionFinish
        (interactionFinish
          (beginInteraction initWorld { event_id := some "A" } 0).1 0 {} 1)
        0 {} 2 =
      interactionFinish
        (beginInteraction initWorld { event_id := some "A" } 0).1 0 {} 1 ∧
    countInteractionSends
        (interactionFinish
          (beginInteraction initWorld { event_id := some "A" } 0).1
          0 {} 1).sent =
      countInteractionSends
        ((beginInteraction initWorld { event_id := some "A" } 0).1).sent
        + 1 := by
  have h := claim_C2_finish_idempotent
    (beginInteraction initWorld { event_id := some "A" } 0).1 0
    ⟨{ interaction_id := "A", start_time := 0, event := some "interaction" },
      false⟩
    {} {} 1 2 (by decide) rfl
  exact ⟨h.1, h.2.2⟩

/-- C10: `_finish_interaction` clears the current interaction context
exactly when the context installed as current carries the id of the
interaction being finished; finishing an interaction with a different id
leaves the current context unchanged. -/
theorem claim_C10_finish_context_frame (w : World) (h : ℕ) (t : ℚ)
    (obj : InteractionObj) (hh : w.handles[h]? = some obj) :
    (currentId w ≠ some obj.ctx.interaction_id →
      (finishInteractionCore w h t).current = w.current) ∧
    (currentId w = some obj.ctx.interaction_id →
      (finishInteractionCore w h t).current = none) := by
  rw [finishInteractionCore_eq w h t obj hh]
  cases hcur : w.current with
  | none =>
    constructor
    · intro _
      simp
    · intro hc
      simp [currentId, hcur] at hc
  | some c =>
    cases hcobj : w.handles[c]? with
    | none =>
      constructor
      · intro _
        simp [hcobj]
      · intro hc
        simp [currentId, hcur, hcobj] at hc
    | some cobj =>
      by_cases hid : cobj.ctx.interaction_id = obj.ctx.interaction_id
      · constructor
        · intro hne
          exact absurd (by simp [currentId, hcur, hcobj, hid]) hne
        · intro _
          simp [hcobj, hid]
      · constructor
        · intro _
          simp [hcobj, hid]
        · intro hc
          simp only [currentId, hcur, hcobj, Option.some_bind,
            Option.map_some'] at hc
          exact absurd (Option.some_inj.mp hc) hid

theorem claim_C10_witness :
    (finishInteractionCore
        (beginInteraction
          (beginInteraction initWorld { event_id := some "A" } 0).1
          { event_id := some "B" } 1).1
        0 5).current =
      (beginInteraction
        (beginInteraction initWorld { event_id := some "A" } 0).1
        { event_id := some "B" } 1).1.current :=
  (claim_C10_finish_context_frame _ 0 5
    ⟨{ interaction_id := "A", start_time := 0, event := some "interaction" },
      false⟩
    (by decide)).1 (by decide)

/-- C7: `resume_interaction(id)` raises (a `KeyError`) exactly when the id
is not in the active-interaction registry, which over any run holds
exactly when the ghost registry history's most recent event for the id is
not a begin (the id was never begun, or an interaction with that id was
finished after its last begin); on success it installs the registered
interaction's context as current and returns the registry's handle for
that id, which refers to a live, unfinished interaction carrying that id. -/
theorem claim_C7_resume_registry (ops : List COp) (event_id : String)
    (hv : ValidTrace initWorld ops) :
    ((∃ msg, resumeInteraction (runClient initWorld ops) event_id =
        Except.error msg) ↔
      lookupActive (runClient initWorld ops).active event_id = none) ∧
    (lookupActive (runClient initWorld ops).active event_id = none ↔
      lastIsBegun event_id (runClient initWorld ops).log = false) ∧
    (∀ (w' : World) (h : ℕ),
      resumeInteraction (runClient initWorld ops) event_id =
        Except.ok (w', h) →
      lookupActive (runClient initWorld ops).active event_id = some h ∧
      w' = { runClient initWorld ops with current := some h } ∧
      ∃ obj, (runClient initWorld ops).handles[h]? = some obj ∧
        obj.ctx.interaction_id = event_id ∧ obj.finished = false) := by
  obtain ⟨hH, hM, hC, hA, hL⟩ := runClient_inv ops initWorld worldInv_init hv
  refine ⟨?_, ?_, ?_⟩
  · cases hlook : lookupActive (runClient initWorld ops).active event_id with
    | none =>
      constructor
      · intro _
        rfl
      · intro _
        exact ⟨"No active interaction with ID: " ++ event_id,
          by simp [resumeInteraction, hlook]⟩
    | some h =>
      constructor
      · intro ⟨msg, heq⟩
        simp [resumeInteraction, hlook] at heq
      · intro hc
        cases hc
  · have := hL event_id
    cases hlook : lookupActive (runClient initWorld ops).active event_id with
    | none =>
      rw [hlook] at this
      simp only [Option.isSome_none] at this
      exact ⟨fun _ => this.symm, fun _ => rfl⟩
    | some h =>
      rw [hlook] at this
      simp only [Option.isSome_some] at this
      constructor
      · intro hc
        cases hc
      · intro hc
        rw [← this] at hc
        cases hc
  · intro w' h heq
    cases hlook : lookupActive (runClient initWorld ops).active event_id with
    | none =>
      simp [resumeInteraction, hlook] at heq
    | some h0 =>
      simp only [resumeInteraction, hlook, Except.ok.injEq, Prod.mk.injEq]
        at heq
      obtain ⟨hw', hhh⟩ := heq
      subst hhh
      refine ⟨rfl, hw'.symm, ?_⟩
      exact hA (event_id, h0) (lookupActive_mem _ _ _ hlook)

theorem claim_C7_witness :
    (∃ msg, resumeInteraction
        (runClient initWorld
          [COp.beginI { event_id := some "A" } 0, COp.finishI 0 {} 1])
        "A" = Except.error msg) ∧
    lastIsBegun "A"
      (runClient initWorld
        [COp.beginI { event_id := some "A" } 0, COp.finishI 0 {} 1]).log =
      false := by
  have h := claim_C7_resume_registry
    [COp.beginI { event_id := some "A" } 0, COp.finishI 0 {} 1] "A"
    ⟨trivial, trivial, trivial⟩
  have hlog : lastIsBegun "A"
      (runClient initWorld
        [COp.beginI { event_id := some "A" } 0, COp.finishI 0 {} 1]).log =
      false := by rfl
  exact ⟨h.1.mpr (h.2.1.mpr hlog), hlog⟩

/-- C8: every span stored in an interaction's span list carries
`parent_id` equal to that interaction's id, and once its `end_time` is
set, `end_time ≥ start_time` with `latency_ms` equal to
`(end_time - start_time)` truncated to whole milliseconds. -/
theorem claim_C8_span_invariants (ops : List COp)
    (hv : ValidTrace initWorld ops) (i : ℕ) (obj : InteractionObj)
    (hobj : (runClient initWorld ops).handles[i]? = some obj)
    (sp : SpanData) (hsp : sp ∈ obj.ctx.spans) :
    sp.parent_id = some obj.ctx.interaction_id ∧
    ∀ t, sp.end_time = some t →
      sp.start_time ≤ t ∧ sp.latency_ms = some (latencyMs sp.start_time t) :=
  (runClient_inv ops initWorld worldInv_init hv).1 i obj hobj sp hsp

/-- Concrete run for the C8 witness: one begun interaction and one
tool-decorated call inside it. -/
def c8ops : List COp :=
  [COp.beginI { event_id := some "A" } 0,
   COp.toolI "lookup_price" "q" (Except.ok "r") 1 2]

/-- The state of the single interaction handle after `c8ops`. -/
def c8obj : InteractionObj :=
  ⟨{ interaction_id := "A", start_time := 0, event := some "interaction",
     spans := [{ span_id := "trace_0", name := "lookup_price",
                 type := SpanType.tool, start_time := 1,
                 parent_id := some "A", end_time := some 2,
                 latency_ms := some (latencyMs 1 2), input := some "q",
                 output := some "r" }] }, false⟩

/-- The single appended span after `c8ops`. -/
def c8span : SpanData :=
  { span_id := "trace_0", name := "lookup_price", type := SpanType.tool,
    start_time := 1, parent_id := some "A", end_time := some 2,
    latency_ms := some (latencyMs 1 2), input := some "q",
    output := some "r" }

theorem claim_C8_witness :
    c8span.parent_id = some c8obj.ctx.interaction_id ∧
    c8span.start_time ≤ 2 ∧
    c8span.latency_ms = some (latencyMs c8span.start_time 2) := by
  have h := claim_C8_span_invariants c8ops
    ⟨trivial, by show (1 : ℚ) ≤ 2; norm_num, trivial⟩ 0 c8obj (by rfl)
    c8span (by simp [c8obj, c8span])
  exact ⟨h.1, (h.2 2 rfl).1, (h.2 2 rfl).2⟩

/-- C6 counterexample: a `ManualSpan` on which `record_output` was called
and which was then ended with an error finalizes with *both* `output` and
`error` set (because `ManualSpan.end` never clears a previously recorded
output), and that span reaches the Transport as a standalone trace with
both fields populated — contradicting the claim that a Span with an error
never also carries a successful output. -/
theorem claim_C6_counterexample :
    (runClient initWorld
      [COp.startSpanI "s" SpanType.tool 0, COp.recordOutputI 0 "ok",
       COp.endSpanI 0 (some "boom") 1]).mspans =
      [⟨{ span_id := "trace_0", name := "s", type := SpanType.tool,
          start_time := 0, parent_id := none, end_time := some 1,
          latency_ms := some (latencyMs 0 1), input := none,
          output := some "ok", error := some "boom",
          properties := [] }, none, true⟩] ∧
    (runClient initWorld
      [COp.startSpanI "s" SpanType.tool 0, COp.recordOutputI 0 "ok",
       COp.endSpanI 0 (some "boom") 1]).sent =
      [SentEvent.traceEv "trace_0" none (some "ok") (some "boom")] :=
  ⟨rfl, rfl⟩

/-- C6 amended: spans finalized by the `tool` decorator never carry both
an output and an error — on the exception path the output is never set —
but a `ManualSpan` finalized by `end(error=...)` after `record_output`
keeps both (see the counterexample). -/
theorem claim_C6_tool_error_no_output (n : ℕ) (name arg : String)
    (res : Except String String) (t0 t1 : ℚ) (parent : Option String)
    (herr : (toolSpan n name arg res t0 t1 parent).error.isSome = true) :
    (toolSpan n name arg res t0 t1 parent).output = none := by
  cases res with
  | ok v => simp [toolSpan] at herr
  | error e => simp [toolSpan]

theorem claim_C6_amended_witness :
    (toolSpan 0 "t" "a" (Except.error "b") 0 1 none).output = none :=
  claim_C6_tool_error_no_output 0 "t" "a" (Except.error "b") 0 1 none rfl

end RdMini
